import Mathlib

/-!
Verification of the concurrent download orchestrator of `booru-dl`
(`src/hash.rs`, `src/download.rs`, `src/scheduler.rs`) against its
natural-language specification, via a shallow embedding in Lean 4.

File paths are modelled abstractly as a stem plus an optional extension
(the only path operation the code under study performs is
`Path::with_extension`), file contents as lists of bytes, and the file
system as a total map from paths to an entry that is either absent,
a readable content, or an I/O error raised while reading.
-/

/-- Kinds of I/O errors (`std::io::ErrorKind`); only `NotFound` is
distinguished by the code under study, every other kind is collapsed
into `other` with a numeric discriminant. -/
inductive IoErrorKind where
  | notFound
  | other (code : Nat)
deriving DecidableEq, Repr

/-- A `std::io::Error`, reduced to its kind (the only part the code inspects). -/
structure IoError where
  kind : IoErrorKind
deriving DecidableEq, Repr

/-- A file path: stem plus optional extension, the only structure
`Path::with_extension` needs. -/
structure FsPath where
  stem : String
  ext : Option String
deriving DecidableEq, Repr

/-- Embeds `Path::with_extension`: replace (or add) the extension. -/
def FsPath.withExtension (p : FsPath) (e : String) : FsPath :=
  { p with ext := some e }

/-- What the file system holds at a path, as observed by one read of the
whole file: the file is absent, readable with the given bytes, or reading
it raises the given I/O error. -/
inductive FsEntry where
  | absent
  | content (bytes : List Nat)
  | ioError (e : IoError)
deriving DecidableEq, Repr

/-- A snapshot of the file system. -/
def FileSystem : Type := FsPath → FsEntry

/-- Lowercase hex digit for a value below 16 (`base16ct` digit table). -/
def hexDigitLower (n : Nat) : Char :=
  if n < 10 then Char.ofNat (48 + n) else Char.ofNat (87 + n)

/-- Embeds `base16ct::lower::encode_string`: two lowercase hex characters per byte. -/
def base16Lower (bytes : List Nat) : String :=
  String.mk (bytes.foldr (fun b acc => hexDigitLower (b / 16 % 16) :: hexDigitLower (b % 16) :: acc) [])

/-- Embeds `hash_file::<D>` from `src/hash.rs`: open the file (absence surfaces as a
`NotFound` I/O error, any read error propagates), feed the whole content
through the digest `D` (passed here as the function `digest` on byte lists),
and return the lowercase hex encoding of the final digest. -/
def hash_file (digest : List Nat → List Nat) (fs : FileSystem) (filepath : FsPath) :
    Except IoError String :=
  match fs filepath with
  | .absent => .error ⟨.notFound⟩
  | .ioError e => .error e
  | .content bytes => .ok (base16Lower (digest bytes))

/-- Embeds `Scheduler::check_file_existed` from `src/scheduler.rs`: hash the file and
compare the digest to `hashed_value` with exact string equality
(`file_md5 == hashed_value.as_ref()`); a `NotFound` error maps to `Ok(false)`,
any other error propagates. -/
def check_file_existed (digest : List Nat → List Nat) (fs : FileSystem)
    (filepath : FsPath) (hashed_value : String) : Except IoError Bool :=
  match hash_file digest fs filepath with
  | .ok file_md5 => .ok (file_md5 == hashed_value)
  | .error err =>
      if err.kind == .notFound then .ok false else .error err

/-- ASCII lowercasing of one character. -/
def lowerChar (c : Char) : Char :=
  if 65 ≤ c.toNat ∧ c.toNat ≤ 90 then Char.ofNat (c.toNat + 32) else c

/-- Spec-side comparison for the refinement in C1, following the spec's words
"case-insensitive (or pre-normalized) hex comparison": equality after
lowercasing both sides. -/
def specHexEqCaseInsensitive (a b : String) : Bool :=
  a.data.map lowerChar == b.data.map lowerChar

/-- A one-byte file `[0xab]` at a fixed path, used as concrete input. -/
def fsOneByte : FileSystem := fun p =>
  if p = ⟨"1234", some "jpg"⟩ then .content [171] else .absent


/-!
## The download future (`src/download.rs`, `DownloadFutureBuilder::build`)

The async block is embedded as a pure function over an environment that
records the outcome of each external interaction: the HTTP send (combined
with `error_for_status`), `File::create`, `set_len`, the chunk stream
(each successfully yielded chunk together with the outcome of writing it),
and the final `flush`. The shared byte counter is a `Nat` threaded through
the chunk loop; `usize` wrap-around of `fetch_add` is `% (USIZE_MAX + 1)`,
and the explicit `checked_add` overflow panic is a distinguished
terminal outcome `panicked`.
-/

instance {ε α : Type} [DecidableEq ε] [DecidableEq α] : DecidableEq (Except ε α) := fun
  | .error e, .error f =>
    if h : e = f then .isTrue (by rw [h]) else .isFalse (fun hh => h (by cases hh; rfl))
  | .error _, .ok _ => .isFalse (fun hh => by cases hh)
  | .ok _, .error _ => .isFalse (fun hh => by cases hh)
  | .ok a, .ok b =>
    if h : a = b then .isTrue (by rw [h]) else .isFalse (fun hh => h (by cases hh; rfl))

/-- A `reqwest::Error`, reduced to an opaque discriminant (transport error or
non-success status from `error_for_status`). -/
structure ReqwestError where
  code : Nat
deriving DecidableEq, Repr

/-- Embeds `DownloadError` from `src/download.rs`. -/
inductive DownloadError where
  | Io (e : IoError)
  | Reqwest (e : ReqwestError)
  | ZeroContentLength
  | FileAllocationFailed (e : IoError)
deriving DecidableEq, Repr

/-- One iteration of `response.chunk().await?`: either a chunk was yielded
(recorded with the outcome of `write_all_buf` for it), or the read failed.
The end of the event list models `chunk()` returning `None`. -/
inductive ChunkEvent where
  | chunk (bytes : List Nat) (writeResult : Except IoError Unit)
  | readError (e : ReqwestError)
deriving DecidableEq, Repr

/-- The HTTP response observed by the future: declared content length and
the stream of chunk events. -/
structure Response where
  content_length : Option Nat
  events : List ChunkEvent
deriving DecidableEq, Repr

/-- Environment of one run of the download future: outcomes of the external
interactions, in program order. -/
structure DlEnv where
  send : Except ReqwestError Response
  create : Except IoError Unit
  set_len : Except IoError Unit
  flushResult : Except IoError Unit
deriving DecidableEq, Repr

/-- Maximum value of `usize` on the 64-bit targets the crate builds for. -/
def USIZE_MAX : Nat := 2 ^ 64 - 1

/-- Outcome of running code that may `panic!`. -/
inductive RunResult (α : Type) where
  | panicked
  | ok (a : α)
deriving DecidableEq, Repr

/-- The `while let Some(chunk) = response.chunk().await?` loop: write each
chunk, then, when the weak data cursor is still alive (`cursorAlive`),
`fetch_add` the chunk length (wrapping, `Ordering::Release`) and panic if the
pre-add value plus the chunk length overflows `usize`. Returns the loop's
result together with the final counter value. -/
def chunkLoop (cursorAlive : Bool) :
    Nat → List ChunkEvent → RunResult (Except DownloadError Unit × Nat)
  | counter, [] => .ok (.ok (), counter)
  | counter, .readError e :: _ => .ok (.error (.Reqwest e), counter)
  | counter, .chunk bytes w :: rest =>
    match w with
    | .error e => .ok (.error (.Io e), counter)
    | .ok _ =>
      if cursorAlive then
        let previous_value := counter
        let counter' := (previous_value + bytes.length) % (USIZE_MAX + 1)
        if USIZE_MAX < previous_value + bytes.length then .panicked
        else chunkLoop cursorAlive counter' rest
      else chunkLoop cursorAlive counter rest

/-- Embeds `DownloadFutureBuilder::build` from `src/download.rs`: send the request
(propagating transport and status errors), create the destination file,
pre-allocate when a content length is declared (`ZeroContentLength` when it
is 0, `FileAllocationFailed` when `set_len` fails), stream the chunks, flush,
and return the file path. The returned pair is the future's result and the
final value of the shared byte counter. -/
def downloadFuture (env : DlEnv) (cursorAlive : Bool) (counter : Nat)
    (file_path : FsPath) : RunResult (Except DownloadError FsPath × Nat) :=
  match env.send with
  | .error e => .ok (.error (.Reqwest e), counter)
  | .ok response =>
    match env.create with
    | .error e => .ok (.error (.Io e), counter)
    | .ok _ =>
      let afterAlloc : Except DownloadError Unit :=
        match response.content_length with
        | some content_length =>
          if content_length = 0 then .error .ZeroContentLength
          else
            match env.set_len with
            | .error e => .error (.FileAllocationFailed e)
            | .ok _ => .ok ()
        | none => .ok ()
      match afterAlloc with
      | .error e => .ok (.error e, counter)
      | .ok _ =>
        match chunkLoop cursorAlive counter response.events with
        | .panicked => .panicked
        | .ok (.error e, c) => .ok (.error e, c)
        | .ok (.ok _, c) =>
          match env.flushResult with
          | .error e => .ok (.error (.Io e), c)
          | .ok _ => .ok (.ok file_path, c)

/-!
## One download task (`src/scheduler.rs`, `Scheduler::single_download`)

The task is embedded as a pure function of the file-system snapshot (for the
existing-file check), the already-built download future (given by its
result), and an oracle for `tokio::fs::write` of the tag sidecar. Besides
the task's `anyhow::Result`, the embedding records whether the download
future was awaited and which sidecar write succeeded, so that the claims
about "no network transfer" and the sidecar contents can be stated.
-/

/-- Embeds `SingleDownloadResult` from `src/scheduler.rs`. -/
inductive SingleDownloadResult where
  | Done
  | Existed
deriving DecidableEq, Repr

/-- The failure of one task, tagged by the step whose `with_context` wrapped
it (existence check, download, or tag write). -/
inductive SdError where
  | checkFailed (e : IoError)
  | downloadFailed (e : DownloadError)
  | tagWriteFailed (e : IoError)
deriving DecidableEq, Repr

/-- Observable outcome of one `single_download` run. -/
structure SdOutcome where
  result : Except SdError SingleDownloadResult
  downloadAwaited : Bool
  sidecarWritten : Option (FsPath × String)
deriving DecidableEq, Repr

/-- Embeds `tags.replace` of a space by a comma-space on the underlying characters: every space
becomes a comma followed by a space. -/
def tagsReplaceSpaces : List Char → List Char
  | [] => []
  | c :: rest =>
    if c = ' ' then ',' :: ' ' :: tagsReplaceSpaces rest
    else c :: tagsReplaceSpaces rest

/-- Embeds `Scheduler::single_download` from `src/scheduler.rs` (data flow after the
permit was acquired; the permit discipline itself is modelled separately):
check whether the file already exists (propagating check errors), return
`Existed` without awaiting the download future when it does, otherwise await
the download, then write the tag sidecar at the path with extension replaced
by `txt`; `Done` only when both the download and the sidecar write succeed. -/
def single_download (digest : List Nat → List Nat) (fs : FileSystem)
    (writeTags : FsPath → String → Except IoError Unit)
    (filepath : FsPath) (md5 tags : String)
    (download_future : Except DownloadError FsPath) : SdOutcome :=
  match check_file_existed digest fs filepath md5 with
  | .error e => ⟨.error (.checkFailed e), false, none⟩
  | .ok true => ⟨.ok .Existed, false, none⟩
  | .ok false =>
    match download_future with
    | .error e => ⟨.error (.downloadFailed e), true, none⟩
    | .ok _ =>
      let tag_file_path := filepath.withExtension "txt"
      let contents := String.mk (tagsReplaceSpaces tags.data)
      match writeTags tag_file_path contents with
      | .error e => ⟨.error (.tagWriteFailed e), true, none⟩
      | .ok _ => ⟨.ok .Done, true, some (tag_file_path, contents)⟩

/-!
## The aggregation loop (`src/scheduler.rs`, `Scheduler::update_status`)

The loop consumes, in arrival order, the `join_next` results of the spawned
tasks: either a `JoinError` (task panicked or was cancelled — both abort the
whole run via `resume_unwind` / `panic!`) or the task's own result. Each
consumed result updates the three counters and advances the progress bar by
one (`inc(1)`).
-/

/-- A `tokio::task::JoinError`: the joined task panicked or was cancelled. -/
inductive JoinError where
  | panicOf (reason : Nat)
  | cancelled
deriving DecidableEq, Repr

/-- Embeds `DownloadStatus` from `src/scheduler.rs`. -/
structure DownloadStatus where
  done : Nat
  existed : Nat
  failed : Nat
deriving DecidableEq, Repr

/-- The progress bar state the loop mutates: the current message's counters
and the bar position (`inc(1)` per consumed outcome). -/
structure PbState where
  status : DownloadStatus
  pos : Nat
deriving DecidableEq, Repr

/-- One iteration body of the `while let` in `update_status`: match on the
task's result, bump the corresponding counter, advance the bar by one. -/
def statusStep (s : PbState) (task_result : Except SdError SingleDownloadResult) : PbState :=
  match task_result with
  | .ok .Done => ⟨⟨s.status.done + 1, s.status.existed, s.status.failed⟩, s.pos + 1⟩
  | .ok .Existed => ⟨⟨s.status.done, s.status.existed + 1, s.status.failed⟩, s.pos + 1⟩
  | .error _ => ⟨⟨s.status.done, s.status.existed, s.status.failed + 1⟩, s.pos + 1⟩

/-- Embeds `Scheduler::update_status` from `src/scheduler.rs`: drain the join set in
completion order; a `JoinError` aborts the run (`resume_unwind` for a panic,
`panic!` for an unexpected cancellation), otherwise the counters and the bar
advance and the loop continues until every spawned task has yielded. -/
def update_status :
    PbState → List (Except JoinError (Except SdError SingleDownloadResult)) → RunResult PbState
  | s, [] => .ok s
  | _, .error _ :: _ => .panicked
  | s, .ok task_result :: rest => update_status (statusStep s task_result) rest

/-- The initial progress-bar state built by `build_process_bar`. -/
def pbInit : PbState := ⟨⟨0, 0, 0⟩, 0⟩

/-!
## Permit discipline (`src/scheduler.rs`, `single_download` + `launch`)

`launch` creates `Semaphore::new(NUM_CPUS)` and spawns one `single_download`
task per post record. Each task first awaits `semaphore.acquire()` and binds
the permit guard to `_permit`, which is dropped — releasing the permit — when
the task returns on any path (`Existed`, `Done`, or any `?` early return).
This control flow is embedded as a small transition system: each task is in
one of five phases mirroring the await points of `single_download`, a step
interleaves one task's next move, and `acquire` is guarded by the semaphore's
capacity. Per-task acquire/release counters record the events so that
"exactly once per item" is expressible.
-/

/-- Phase of one spawned `single_download` task. -/
inductive TaskPhase where
  /-- Spawned; blocked on `semaphore.acquire()`. -/
  | idle
  /-- Holds a permit; running `check_file_existed` (hashing I/O). -/
  | checking
  /-- Holds a permit; awaiting `download_future` (network + disk I/O). -/
  | downloading
  /-- Holds a permit; writing the tag sidecar. -/
  | writingTags
  /-- Returned; the `_permit` guard was dropped. -/
  | finished
deriving DecidableEq, Repr

/-- One task's state: its phase plus how many times it acquired and released
a permit so far. -/
structure TaskSt where
  phase : TaskPhase
  acquired : Nat
  released : Nat
deriving DecidableEq, Repr

/-- Whether a task in this phase holds a semaphore permit. -/
def holdsPermit : TaskPhase → Bool
  | .checking => true
  | .downloading => true
  | .writingTags => true
  | .idle => false
  | .finished => false

/-- Number of tasks currently holding a permit. -/
def countHolding (ts : List TaskSt) : Nat :=
  (ts.filter fun t => holdsPermit t.phase).length

/-- One interleaving step of the spawned tasks, for a semaphore of capacity
`cap`. Transitions follow `single_download`'s control flow; every return path
releases the permit (drop of `_permit`). -/
inductive SchedStep (cap : Nat) : List TaskSt → List TaskSt → Prop
  /-- Step `semaphore.acquire()` resolves: only when a permit is free. -/
  | acquire (ts : List TaskSt) (i : Nat) (h : i < ts.length)
      (hphase : ts[i].phase = .idle) (hcap : countHolding ts < cap) :
      SchedStep cap ts
        (ts.set i ⟨.checking, ts[i].acquired + 1, ts[i].released⟩)
  /-- The check returns `true` (file existed) or errors: the task returns,
  dropping the permit. -/
  | checkExit (ts : List TaskSt) (i : Nat) (h : i < ts.length)
      (hphase : ts[i].phase = .checking) :
      SchedStep cap ts
        (ts.set i ⟨.finished, ts[i].acquired, ts[i].released + 1⟩)
  /-- The check returns `false`: the task proceeds to await the download. -/
  | checkAbsent (ts : List TaskSt) (i : Nat) (h : i < ts.length)
      (hphase : ts[i].phase = .checking) :
      SchedStep cap ts
        (ts.set i ⟨.downloading, ts[i].acquired, ts[i].released⟩)
  /-- The download future fails: early return via `?`, dropping the permit. -/
  | downloadExit (ts : List TaskSt) (i : Nat) (h : i < ts.length)
      (hphase : ts[i].phase = .downloading) :
      SchedStep cap ts
        (ts.set i ⟨.finished, ts[i].acquired, ts[i].released + 1⟩)
  /-- The download succeeds: the task proceeds to write the sidecar. -/
  | downloadOk (ts : List TaskSt) (i : Nat) (h : i < ts.length)
      (hphase : ts[i].phase = .downloading) :
      SchedStep cap ts
        (ts.set i ⟨.writingTags, ts[i].acquired, ts[i].released⟩)
  /-- The sidecar write completes or fails: either way the task returns,
  dropping the permit. -/
  | tagExit (ts : List TaskSt) (i : Nat) (h : i < ts.length)
      (hphase : ts[i].phase = .writingTags) :
      SchedStep cap ts
        (ts.set i ⟨.finished, ts[i].acquired, ts[i].released + 1⟩)

/-- States reachable by interleaving the `n` spawned tasks from the initial
state where every task is blocked on `acquire`. -/
inductive SchedReach (cap n : Nat) : List TaskSt → Prop
  | init : SchedReach cap n (List.replicate n ⟨.idle, 0, 0⟩)
  | step {s t : List TaskSt} :
      SchedReach cap n s → SchedStep cap s t → SchedReach cap n t

/-- The acquire/release discipline of one task, as a function of its phase:
before `acquire` nothing happened; while holding (all hashing / transfer /
sidecar I/O phases) it has acquired exactly once and released nothing; once
finished it has acquired and released exactly once. -/
def permitInv (t : TaskSt) : Prop :=
  (t.phase = .idle → t.acquired = 0 ∧ t.released = 0) ∧
  (holdsPermit t.phase = true → t.acquired = 1 ∧ t.released = 0) ∧
  (t.phase = .finished → t.acquired = 1 ∧ t.released = 1)

/-!
## Theorems
-/

/-- Concrete file systems used as witnesses. -/
def fsAbsentEx : FileSystem := fun _ => .absent

/-- A file system on which every read raises a non-`NotFound` I/O error. -/
def fsErrEx : FileSystem := fun _ => .ioError ⟨.other 5⟩

/-- C1, counterexample: the file `[0xab]` hashes (under the identity digest
stand-in) to the lowercase hex digest `"ab"`, which case-insensitively equals
the uppercase expected hash `"AB"`, yet `check_file_existed` reports the file
as not existing — the comparison is exact, not case-insensitive. -/
theorem c1_counterexample :
    hash_file id fsOneByte ⟨"1234", some "jpg"⟩ = .ok "ab" ∧
    specHexEqCaseInsensitive "ab" "AB" = true ∧
    check_file_existed id fsOneByte ⟨"1234", some "jpg"⟩ "AB" = .ok false :=
  ⟨rfl, by decide, rfl⟩

/-- C1, amended: when hashing the file succeeds with digest `d` (always
lowercase hex), `check_file_existed` returns true exactly when `d` is equal
to the expected hash by exact, case-sensitive string comparison; an
uppercase-hex expected hash of a matching file is therefore reported as not
existing. -/
theorem c1_check_exact_comparison (digest : List Nat → List Nat) (fs : FileSystem)
    (filepath : FsPath) (expected d : String)
    (h : hash_file digest fs filepath = .ok d) :
    check_file_existed digest fs filepath expected = .ok (d == expected) := by
  unfold check_file_existed
  rw [h]

/-- C1, witness: the amended theorem applied to the one-byte file and the
uppercase expected hash `"AB"`. -/
theorem c1_check_exact_comparison_witness :
    check_file_existed id fsOneByte ⟨"1234", some "jpg"⟩ "AB" = .ok ("ab" == "AB") :=
  c1_check_exact_comparison id fsOneByte ⟨"1234", some "jpg"⟩ "AB" "ab" rfl

/-- C2: a path absent from disk makes `check_file_existed` return `Ok(false)`
without an error, and any I/O error of a kind other than `NotFound` raised
while hashing propagates unchanged. -/
theorem c2_absent_is_false_other_errors_propagate (digest : List Nat → List Nat)
    (fs : FileSystem) (filepath : FsPath) (expected : String) :
    (fs filepath = .absent →
      check_file_existed digest fs filepath expected = .ok false) ∧
    (∀ e : IoError, fs filepath = .ioError e → e.kind ≠ .notFound →
      check_file_existed digest fs filepath expected = .error e) := by
  constructor
  · intro h
    simp [check_file_existed, hash_file, h]
  · intro e h hk
    simp only [check_file_existed, hash_file, h]
    have : (e.kind == IoErrorKind.notFound) = false := by
      simpa using hk
    simp [this]

/-- C2, witness: the theorem applied to an all-absent file system and to one
raising error kind `other 5` on every read. -/
theorem c2_absent_is_false_other_errors_propagate_witness :
    check_file_existed id fsAbsentEx ⟨"a", none⟩ "x" = .ok false ∧
    check_file_existed id fsErrEx ⟨"a", none⟩ "x" = .error ⟨.other 5⟩ :=
  ⟨(c2_absent_is_false_other_errors_propagate id fsAbsentEx ⟨"a", none⟩ "x").1 rfl,
   (c2_absent_is_false_other_errors_propagate id fsErrEx ⟨"a", none⟩ "x").2
     ⟨.other 5⟩ rfl (by decide)⟩

/-- C3: when the destination file is on disk with content whose digest equals
the record's expected hash, `single_download` returns `Existed`, never awaits
the download future (the outcome is the same for every future, and its
`downloadAwaited` flag is false), and writes no sidecar. -/
theorem c3_existing_file_skips_download (digest : List Nat → List Nat)
    (fs : FileSystem) (writeTags : FsPath → String → Except IoError Unit)
    (filepath : FsPath) (md5 tags : String)
    (download_future : Except DownloadError FsPath) (bytes : List Nat)
    (hfs : fs filepath = .content bytes)
    (hmd5 : base16Lower (digest bytes) = md5) :
    single_download digest fs writeTags filepath md5 tags download_future
      = ⟨.ok .Existed, false, none⟩ := by
  simp [single_download, check_file_existed, hash_file, hfs, hmd5]

/-- C3, witness: the theorem applied to the one-byte file with matching hash
`"ab"` and a download future that would fail if awaited. -/
theorem c3_existing_file_skips_download_witness :
    single_download id fsOneByte (fun _ _ => .ok ()) ⟨"1234", some "jpg"⟩ "ab"
      "foo bar" (.error .ZeroContentLength) = ⟨.ok .Existed, false, none⟩ :=
  c3_existing_file_skips_download id fsOneByte (fun _ _ => .ok ())
    ⟨"1234", some "jpg"⟩ "ab" "foo bar" (.error .ZeroContentLength) [171] rfl rfl

/-- The chunk loop can fail with transport (`Reqwest`) or write (`Io`) errors
only; it never produces `ZeroContentLength`. -/
theorem chunkLoop_ne_zeroContentLength (alive : Bool) (counter : Nat)
    (events : List ChunkEvent) (c' : Nat) :
    chunkLoop alive counter events ≠ .ok (.error .ZeroContentLength, c') := by
  induction events generalizing counter c' with
  | nil => intro hc; simp [chunkLoop] at hc
  | cons ev rest ih =>
    intro hc
    match ev with
    | .readError e => simp [chunkLoop] at hc
    | .chunk bytes (.error e) => simp [chunkLoop] at hc
    | .chunk bytes (.ok u) =>
      rw [chunkLoop] at hc
      cases alive with
      | false =>
        exact ih counter c' (by simpa using hc)
      | true =>
        simp only [if_true] at hc
        by_cases hov : USIZE_MAX < counter + bytes.length
        · simp [hov] at hc
        · simp only [hov, if_false] at hc
          exact ih _ c' hc

/-- Concrete environment: response declaring content length 0, every other
interaction succeeding. -/
def envZeroLen : DlEnv := ⟨.ok ⟨some 0, []⟩, .ok (), .ok (), .ok ()⟩

/-- C4: when the response declares content length exactly 0, the download
future fails with `ZeroContentLength` (once the send and the file creation
succeeded) and never returns success on any path; when the response declares
no content length, the future never fails with `ZeroContentLength`. -/
theorem c4_zero_content_length (env : DlEnv) (alive : Bool) (counter : Nat)
    (file_path : FsPath) (response : Response)
    (hsend : env.send = .ok response) :
    (response.content_length = some 0 → env.create = .ok () →
      downloadFuture env alive counter file_path
        = .ok (.error .ZeroContentLength, counter)) ∧
    (response.content_length = some 0 →
      ∀ (fp' : FsPath) (c' : Nat),
        downloadFuture env alive counter file_path ≠ .ok (.ok fp', c')) ∧
    (response.content_length = none →
      ∀ c' : Nat,
        downloadFuture env alive counter file_path
          ≠ .ok (.error .ZeroContentLength, c')) := by
  refine ⟨?_, ?_, ?_⟩
  · intro hcl hcreate
    simp [downloadFuture, hsend, hcreate, hcl]
  · intro hcl fp' c' hok
    rw [downloadFuture, hsend] at hok
    match hcreate : env.create with
    | .error e => rw [hcreate] at hok; simp at hok
    | .ok u => rw [hcreate] at hok; simp [hcl] at hok
  · intro hcl c' hok
    rw [downloadFuture, hsend] at hok
    match hcreate : env.create with
    | .error e => rw [hcreate] at hok; simp at hok
    | .ok u =>
      rw [hcreate] at hok
      simp only [hcl] at hok
      match hloop : chunkLoop alive counter response.events with
      | .panicked => simp [hloop] at hok
      | .ok (.error e, c) =>
        simp only [hloop] at hok
        injection hok with h1
        injection h1 with h2 h3
        injection h2 with h4
        exact chunkLoop_ne_zeroContentLength alive counter response.events c
          (by rw [h4] at hloop; exact hloop)
      | .ok (.ok u2, c) =>
        simp only [hloop] at hok
        match hflush : env.flushResult with
        | .error e => rw [hflush] at hok; simp at hok
        | .ok u3 => rw [hflush] at hok; simp at hok

/-- C4, witness: the theorem's first part applied to `envZeroLen`. -/
theorem c4_zero_content_length_witness :
    downloadFuture envZeroLen true 0 ⟨"f", none⟩
      = .ok (.error .ZeroContentLength, 0) :=
  (c4_zero_content_length envZeroLen true 0 ⟨"f", none⟩ ⟨some 0, []⟩ rfl).1 rfl rfl

/-- Concrete environment: response declaring content length 5, file
pre-allocation failing with error kind `other 28` (`ENOSPC`). -/
def envAllocFail : DlEnv := ⟨.ok ⟨some 5, []⟩, .ok (), .error ⟨.other 28⟩, .ok ()⟩

/-- C5: a declared non-zero content length whose pre-allocation (`set_len`)
fails with I/O error `e` makes the download future fail with
`FileAllocationFailed e`, a variant distinct from the `Io` and `Reqwest`
variants. -/
theorem c5_allocation_failure (env : DlEnv) (alive : Bool) (counter : Nat)
    (file_path : FsPath) (response : Response) (n : Nat) (e : IoError)
    (hsend : env.send = .ok response) (hcreate : env.create = .ok ())
    (hcl : response.content_length = some n) (hn : n ≠ 0)
    (hsl : env.set_len = .error e) :
    downloadFuture env alive counter file_path
      = .ok (.error (.FileAllocationFailed e), counter) ∧
    (∀ e' : IoError, DownloadError.FileAllocationFailed e ≠ .Io e') ∧
    (∀ r : ReqwestError, DownloadError.FileAllocationFailed e ≠ .Reqwest r) := by
  refine ⟨?_, ?_, ?_⟩
  · simp [downloadFuture, hsend, hcreate, hcl, hn, hsl]
  · intro e' h
    cases h
  · intro r h
    cases h

/-- C5, witness: the theorem applied to `envAllocFail`. -/
theorem c5_allocation_failure_witness :
    downloadFuture envAllocFail false 0 ⟨"f", none⟩
      = .ok (.error (.FileAllocationFailed ⟨.other 28⟩), 0) :=
  (c5_allocation_failure envAllocFail false 0 ⟨"f", none⟩ ⟨some 5, []⟩ 5
    ⟨.other 28⟩ rfl rfl rfl (by decide) rfl).1

/-- C6: after a successful download of a not-yet-present file, the sidecar is
written at the destination path with extension replaced by `txt` and contains
the tags with every space replaced by `", "`; a failed sidecar write makes
the item's outcome a `tagWriteFailed` failure, and `Done` is returned only
when both the download and the sidecar write succeeded. -/
theorem c6_sidecar_write (digest : List Nat → List Nat) (fs : FileSystem)
    (writeTags : FsPath → String → Except IoError Unit)
    (filepath : FsPath) (md5 tags : String) (fp' : FsPath)
    (hcheck : check_file_existed digest fs filepath md5 = .ok false) :
    (writeTags (filepath.withExtension "txt")
        (String.mk (tagsReplaceSpaces tags.data)) = .ok () →
      single_download digest fs writeTags filepath md5 tags (.ok fp')
        = ⟨.ok .Done, true,
            some (filepath.withExtension "txt",
              String.mk (tagsReplaceSpaces tags.data))⟩) ∧
    (∀ e : IoError,
      writeTags (filepath.withExtension "txt")
          (String.mk (tagsReplaceSpaces tags.data)) = .error e →
      single_download digest fs writeTags filepath md5 tags (.ok fp')
        = ⟨.error (.tagWriteFailed e), true, none⟩) ∧
    (∀ download_future : Except DownloadError FsPath,
      (single_download digest fs writeTags filepath md5 tags download_future).result
          = .ok .Done →
      (∃ p, download_future = .ok p) ∧
        writeTags (filepath.withExtension "txt")
          (String.mk (tagsReplaceSpaces tags.data)) = .ok ()) := by
  refine ⟨?_, ?_, ?_⟩
  · intro hw
    simp [single_download, hcheck, hw]
  · intro e hw
    simp [single_download, hcheck, hw]
  · intro download_future hdone
    simp only [single_download, hcheck] at hdone
    match hdl : download_future with
    | .error e => simp at hdone
    | .ok p =>
      refine ⟨⟨p, rfl⟩, ?_⟩
      match hw : writeTags (filepath.withExtension "txt")
          (String.mk (tagsReplaceSpaces tags.data)) with
      | .error e => rw [hw] at hdone; simp at hdone
      | .ok u => rfl

/-- C6, witness: the theorem applied to an absent file with tags
`"foo bar"`: the sidecar lands at `1234.txt` with content `"foo, bar"`. -/
theorem c6_sidecar_write_witness :
    single_download id fsAbsentEx (fun _ _ => .ok ()) ⟨"1234", some "jpg"⟩ "ab"
      "foo bar" (.ok ⟨"1234", some "jpg"⟩)
      = ⟨.ok .Done, true, some (⟨"1234", some "txt"⟩, "foo, bar")⟩ :=
  (c6_sidecar_write id fsAbsentEx (fun _ _ => .ok ()) ⟨"1234", some "jpg"⟩ "ab"
    "foo bar" ⟨"1234", some "jpg"⟩ rfl).1 rfl

/-- A list of well-behaved join results (every task yielded a result, none
panicked) is aggregated by `update_status` as a left fold of `statusStep`. -/
theorem update_status_all_yielded (outcomes : List (Except SdError SingleDownloadResult)) :
    ∀ s : PbState, update_status s (outcomes.map .ok) = .ok (outcomes.foldl statusStep s) := by
  induction outcomes with
  | nil => intro s; rfl
  | cons o rest ih => intro s; simpa [update_status] using ih (statusStep s o)

/-- Counting effect of aggregating a list of outcomes: the bar position
advances by exactly the number of consumed outcomes, the three counters'
total grows by the same number, and each counter is non-decreasing. -/
theorem foldl_statusStep_counts (outcomes : List (Except SdError SingleDownloadResult)) :
    ∀ s : PbState,
      (outcomes.foldl statusStep s).pos = s.pos + outcomes.length ∧
      (outcomes.foldl statusStep s).status.done + (outcomes.foldl statusStep s).status.existed
          + (outcomes.foldl statusStep s).status.failed
        = s.status.done + s.status.existed + s.status.failed + outcomes.length ∧
      s.status.done ≤ (outcomes.foldl statusStep s).status.done ∧
      s.status.existed ≤ (outcomes.foldl statusStep s).status.existed ∧
      s.status.failed ≤ (outcomes.foldl statusStep s).status.failed := by
  induction outcomes with
  | nil => intro s; simp
  | cons o rest ih =>
    intro s
    have hstep :
        (statusStep s o).pos = s.pos + 1 ∧
        (statusStep s o).status.done + (statusStep s o).status.existed
            + (statusStep s o).status.failed
          = s.status.done + s.status.existed + s.status.failed + 1 ∧
        s.status.done ≤ (statusStep s o).status.done ∧
        s.status.existed ≤ (statusStep s o).status.existed ∧
        s.status.failed ≤ (statusStep s o).status.failed := by
      match o with
      | .ok .Done => simp [statusStep]; omega
      | .ok .Existed => simp [statusStep]; omega
      | .error e => simp [statusStep]; omega
    have ihs := ih (statusStep s o)
    simp only [List.foldl_cons, List.length_cons]
    omega

/-- C8: over any run whose tasks all yield (input split as a consumed part
`l1` and a remaining part `l2`), the aggregation loop terminates exactly
after consuming every outcome; at termination `done + existed + failed`
equals the number of spawned tasks and the bar position advanced by exactly
one per outcome (also at the intermediate point after `l1`), and each of the
three counters is non-decreasing from the intermediate point to the end. -/
theorem c8_aggregation_counts (l1 l2 : List (Except SdError SingleDownloadResult)) :
    ∃ mid final : PbState,
      update_status pbInit (l1.map .ok) = .ok mid ∧
      update_status pbInit ((l1 ++ l2).map .ok) = .ok final ∧
      final.status.done + final.status.existed + final.status.failed
        = (l1 ++ l2).length ∧
      final.pos = (l1 ++ l2).length ∧
      mid.pos = l1.length ∧
      mid.status.done ≤ final.status.done ∧
      mid.status.existed ≤ final.status.existed ∧
      mid.status.failed ≤ final.status.failed := by
  refine ⟨l1.foldl statusStep pbInit, (l1 ++ l2).foldl statusStep pbInit,
    update_status_all_yielded l1 pbInit, update_status_all_yielded (l1 ++ l2) pbInit,
    ?_, ?_, ?_, ?_, ?_, ?_⟩
  all_goals
    have h1 := foldl_statusStep_counts l1 pbInit
    have h2 := foldl_statusStep_counts l2 (l1.foldl statusStep pbInit)
    simp only [List.foldl_append, pbInit, List.length_append] at *
    omega

/-- C9: one chunk increment of the shared byte counter: when the pre-add
value plus the chunk length exceeds `usize::MAX` the run panics at that
increment (it is never reached with a normal result past it), and when it
does not overflow the loop continues with the counter advanced exactly by
the chunk length — no wrap-around ever feeds the next step. -/
theorem c9_counter_overflow_is_fatal (counter : Nat) (bytes : List Nat)
    (rest : List ChunkEvent) :
    (USIZE_MAX < counter + bytes.length →
      chunkLoop true counter (.chunk bytes (.ok ()) :: rest) = .panicked) ∧
    (counter + bytes.length ≤ USIZE_MAX →
      chunkLoop true counter (.chunk bytes (.ok ()) :: rest)
        = chunkLoop true (counter + bytes.length) rest) ∧
    (∀ (r : Except DownloadError Unit) (c' : Nat),
      chunkLoop true counter (.chunk bytes (.ok ()) :: rest) = .ok (r, c') →
      counter + bytes.length ≤ USIZE_MAX) := by
  refine ⟨?_, ?_, ?_⟩
  · intro hov
    simp [chunkLoop, hov]
  · intro hle
    have hmod : (counter + bytes.length) % (USIZE_MAX + 1) = counter + bytes.length :=
      Nat.mod_eq_of_lt (Nat.lt_succ_of_le hle)
    simp [chunkLoop, Nat.not_lt_of_le hle, hmod]
  · intro r c' hok
    by_cases hov : USIZE_MAX < counter + bytes.length
    · simp [chunkLoop, hov] at hok
    · exact Nat.le_of_not_lt hov

/-- C9, witness: a 1-byte chunk arriving with the counter already at
`usize::MAX` panics the transfer. -/
theorem c9_counter_overflow_is_fatal_witness :
    chunkLoop true USIZE_MAX [.chunk [0] (.ok ())] = .panicked :=
  (c9_counter_overflow_is_fatal USIZE_MAX [0] []).1 (Nat.lt_succ_self USIZE_MAX)

/-- The result (success or error) of the chunk loop, independent of the byte
counter: what the loop returns whenever it does not panic. -/
def chunkLoopResult : List ChunkEvent → Except DownloadError Unit
  | [] => .ok ()
  | .readError e :: _ => .error (.Reqwest e)
  | .chunk _ (.error e) :: _ => .error (.Io e)
  | .chunk _ (.ok _) :: rest => chunkLoopResult rest

/-- With a dead cursor the chunk loop never panics, never touches the
counter, and returns `chunkLoopResult`. -/
theorem chunkLoop_dead (events : List ChunkEvent) :
    ∀ counter : Nat,
      chunkLoop false counter events = .ok (chunkLoopResult events, counter) := by
  induction events with
  | nil => intro counter; rfl
  | cons ev rest ih =>
    intro counter
    match ev with
    | .readError e => rfl
    | .chunk bytes (.error e) => rfl
    | .chunk bytes (.ok u) => simpa [chunkLoop, chunkLoopResult] using ih counter

/-- With a live cursor, whenever the chunk loop completes without panicking
its result is also `chunkLoopResult`. -/
theorem chunkLoop_live_result (events : List ChunkEvent) :
    ∀ (counter c' : Nat) (r : Except DownloadError Unit),
      chunkLoop true counter events = .ok (r, c') → r = chunkLoopResult events := by
  induction events with
  | nil =>
    intro counter c' r h
    simp [chunkLoop] at h
    simp [chunkLoopResult, h.1]
  | cons ev rest ih =>
    intro counter c' r h
    match ev with
    | .readError e =>
      simp [chunkLoop] at h
      simp [chunkLoopResult, h.1]
    | .chunk bytes (.error e) =>
      simp [chunkLoop] at h
      simp [chunkLoopResult, h.1]
    | .chunk bytes (.ok u) =>
      rw [chunkLoop] at h
      simp only [if_true] at h
      by_cases hov : USIZE_MAX < counter + bytes.length
      · simp [hov] at h
      · simp only [hov, if_false] at h
        simpa [chunkLoopResult] using ih _ c' r h

/-- C10: with a dead (already dropped) byte counter the download future never
panics, skips every increment (the counter value threaded through is returned
unchanged, never resurrected), and still completes; whenever the same
environment with a live counter completes with some result, the dead-counter
run completes with that very same success-or-failure result. -/
theorem c10_dead_cursor_noop (env : DlEnv) (counterDead counterLive : Nat)
    (file_path : FsPath) :
    (∃ r : Except DownloadError FsPath,
      downloadFuture env false counterDead file_path = .ok (r, counterDead)) ∧
    (∀ (r : Except DownloadError FsPath) (c' : Nat),
      downloadFuture env true counterLive file_path = .ok (r, c') →
      downloadFuture env false counterDead file_path = .ok (r, counterDead)) := by
  constructor
  · match hsend : env.send with
    | .error e => exact ⟨.error (.Reqwest e), by simp [downloadFuture, hsend]⟩
    | .ok response =>
      match hcreate : env.create with
      | .error e => exact ⟨.error (.Io e), by simp [downloadFuture, hsend, hcreate]⟩
      | .ok u =>
        match hcl : response.content_length with
        | some 0 =>
          exact ⟨.error .ZeroContentLength, by simp [downloadFuture, hsend, hcreate, hcl]⟩
        | some (n + 1) =>
          match hsl : env.set_len with
          | .error e =>
            exact ⟨.error (.FileAllocationFailed e),
              by simp [downloadFuture, hsend, hcreate, hcl, hsl]⟩
          | .ok u2 =>
            match hres : chunkLoopResult response.events with
            | .error e =>
              refine ⟨.error e, ?_⟩
              simp [downloadFuture, hsend, hcreate, hcl, hsl,
                chunkLoop_dead response.events counterDead, hres]
            | .ok u3 =>
              match hflush : env.flushResult with
              | .error e =>
                refine ⟨.error (.Io e), ?_⟩
                simp [downloadFuture, hsend, hcreate, hcl, hsl,
                  chunkLoop_dead response.events counterDead, hres, hflush]
              | .ok u4 =>
                refine ⟨.ok file_path, ?_⟩
                simp [downloadFuture, hsend, hcreate, hcl, hsl,
                  chunkLoop_dead response.events counterDead, hres, hflush]
        | none =>
          match hres : chunkLoopResult response.events with
          | .error e =>
            refine ⟨.error e, ?_⟩
            simp [downloadFuture, hsend, hcreate, hcl,
              chunkLoop_dead response.events counterDead, hres]
          | .ok u3 =>
            match hflush : env.flushResult with
            | .error e =>
              refine ⟨.error (.Io e), ?_⟩
              simp [downloadFuture, hsend, hcreate, hcl,
                chunkLoop_dead response.events counterDead, hres, hflush]
            | .ok u4 =>
              refine ⟨.ok file_path, ?_⟩
              simp [downloadFuture, hsend, hcreate, hcl,
                chunkLoop_dead response.events counterDead, hres, hflush]
  · intro r c' hlive
    obtain ⟨send, create, sl, fl⟩ := env
    match send with
    | .error e => simp_all [downloadFuture]
    | .ok response =>
      match create with
      | .error e => simp_all [downloadFuture]
      | .ok u =>
        match hcl : response.content_length with
        | some 0 => simp_all [downloadFuture]
        | some (n + 1) =>
          match sl with
          | .error e => simp_all [downloadFuture]
          | .ok u2 =>
            simp only [downloadFuture, hcl, Nat.succ_ne_zero, if_false,
              chunkLoop_dead] at hlive ⊢
            match hloop : chunkLoop true counterLive response.events with
            | .panicked => rw [hloop] at hlive; cases hlive
            | .ok (.error e, c) =>
              rw [hloop] at hlive
              have he := chunkLoop_live_result response.events counterLive c (.error e) hloop
              rw [← he]
              simp_all
            | .ok (.ok u3, c) =>
              rw [hloop] at hlive
              have he := chunkLoop_live_result response.events counterLive c (.ok u3) hloop
              rw [← he]
              match fl with
              | .error e => simp_all
              | .ok u4 => simp_all
        | none =>
          simp only [downloadFuture, hcl, chunkLoop_dead] at hlive ⊢
          match hloop : chunkLoop true counterLive response.events with
          | .panicked => rw [hloop] at hlive; cases hlive
          | .ok (.error e, c) =>
            rw [hloop] at hlive
            have he := chunkLoop_live_result response.events counterLive c (.error e) hloop
            rw [← he]
            simp_all
          | .ok (.ok u3, c) =>
            rw [hloop] at hlive
            have he := chunkLoop_live_result response.events counterLive c (.ok u3) hloop
            rw [← he]
            match fl with
            | .error e => simp_all
            | .ok u4 => simp_all

/-- Concrete environment: one 3-byte chunk, everything succeeding. -/
def envOneChunk : DlEnv := ⟨.ok ⟨some 3, [.chunk [1, 2, 3] (.ok ())]⟩, .ok (), .ok (), .ok ()⟩

/-- C10, witness: the live run of `envOneChunk` succeeds with counter 3; the
theorem transports that success to the dead-counter run, whose counter stays
0. -/
theorem c10_dead_cursor_noop_witness :
    downloadFuture envOneChunk false 0 ⟨"f", none⟩ = .ok (.ok ⟨"f", none⟩, 0) :=
  (c10_dead_cursor_noop envOneChunk 0 0 ⟨"f", none⟩).2 (.ok ⟨"f", none⟩) 3 rfl

/-- Permit-count of a cons cell. -/
theorem countHolding_cons (a : TaskSt) (l : List TaskSt) :
    countHolding (a :: l) = (if holdsPermit a.phase then 1 else 0) + countHolding l := by
  simp only [countHolding, List.filter_cons]
  split
  · simp [Nat.add_comm]
  · simp

/-- No more tasks hold a permit than there are tasks. -/
theorem countHolding_le_length (ts : List TaskSt) : countHolding ts ≤ ts.length :=
  List.length_filter_le _ ts

/-- Effect of replacing task `i` on the permit count. -/
theorem countHolding_set (ts : List TaskSt) :
    ∀ (i : Nat) (h : i < ts.length) (t' : TaskSt),
      countHolding (ts.set i t')
          + (if holdsPermit ts[i].phase then 1 else 0)
        = countHolding ts + (if holdsPermit t'.phase then 1 else 0) := by
  induction ts with
  | nil => intro i h; exact absurd h (Nat.not_lt_zero i)
  | cons a rest ih =>
    intro i h t'
    match i with
    | 0 =>
      simp only [List.set, List.getElem_cons_zero, countHolding_cons]
      omega
    | i + 1 =>
      simp only [List.set, List.getElem_cons_succ, countHolding_cons]
      have := ih i (Nat.lt_of_succ_lt_succ h) t'
      omega

/-- The just-spawned task satisfies the permit discipline. -/
theorem permitInv_idle : permitInv ⟨.idle, 0, 0⟩ := by
  refine ⟨fun _ => ⟨rfl, rfl⟩, fun h => ?_, fun h => ?_⟩ <;> simp [holdsPermit] at h

/-- A task that just acquired the permit satisfies the permit discipline. -/
theorem permitInv_checking : permitInv ⟨.checking, 1, 0⟩ := by
  refine ⟨fun h => ?_, fun _ => ⟨rfl, rfl⟩, fun h => ?_⟩ <;> simp at h

/-- A task holding the permit through the download satisfies the discipline. -/
theorem permitInv_downloading : permitInv ⟨.downloading, 1, 0⟩ := by
  refine ⟨fun h => ?_, fun _ => ⟨rfl, rfl⟩, fun h => ?_⟩ <;> simp at h

/-- A task holding the permit through the sidecar write satisfies the
discipline. -/
theorem permitInv_writingTags : permitInv ⟨.writingTags, 1, 0⟩ := by
  refine ⟨fun h => ?_, fun _ => ⟨rfl, rfl⟩, fun h => ?_⟩ <;> simp at h

/-- A finished task has acquired and released exactly once. -/
theorem permitInv_finished : permitInv ⟨.finished, 1, 1⟩ := by
  refine ⟨fun h => ?_, fun h => ?_, fun _ => ⟨rfl, rfl⟩⟩ <;> simp [holdsPermit] at h

/-- One interleaving step preserves the permit invariant. -/
theorem schedStep_inv (cap n : Nat) (s t : List TaskSt) (hstep : SchedStep cap s t)
    (hlen : s.length = n) (hcount : countHolding s ≤ min cap n)
    (hinv : ∀ x ∈ s, permitInv x) :
    t.length = n ∧ countHolding t ≤ min cap n ∧ ∀ x ∈ t, permitInv x := by
  cases hstep with
  | acquire i h hphase hcap =>
    have hset := countHolding_set s i h
      ⟨.checking, s[i].acquired + 1, s[i].released⟩
    rw [hphase] at hset
    simp [holdsPermit] at hset
    refine ⟨by rw [List.length_set]; exact hlen, ?_, ?_⟩
    · have hle := countHolding_le_length
        (s.set i ⟨.checking, s[i].acquired + 1, s[i].released⟩)
      rw [List.length_set] at hle
      omega
    · intro x hx
      rcases List.mem_or_eq_of_mem_set hx with hmem | heq
      · exact hinv x hmem
      · subst heq
        have hold := (hinv (s[i]) (List.getElem_mem h)).1 hphase
        rw [hold.1, hold.2]
        exact permitInv_checking
  | checkExit i h hphase =>
    have hset := countHolding_set s i h
      ⟨.finished, s[i].acquired, s[i].released + 1⟩
    rw [hphase] at hset
    simp [holdsPermit] at hset
    refine ⟨by rw [List.length_set]; exact hlen, by omega, ?_⟩
    intro x hx
    rcases List.mem_or_eq_of_mem_set hx with hmem | heq
    · exact hinv x hmem
    · subst heq
      have hold := (hinv (s[i]) (List.getElem_mem h)).2.1 (by rw [hphase]; rfl)
      rw [hold.1, hold.2]
      exact permitInv_finished
  | checkAbsent i h hphase =>
    have hset := countHolding_set s i h
      ⟨.downloading, s[i].acquired, s[i].released⟩
    rw [hphase] at hset
    simp [holdsPermit] at hset
    refine ⟨by rw [List.length_set]; exact hlen, by omega, ?_⟩
    intro x hx
    rcases List.mem_or_eq_of_mem_set hx with hmem | heq
    · exact hinv x hmem
    · subst heq
      have hold := (hinv (s[i]) (List.getElem_mem h)).2.1 (by rw [hphase]; rfl)
      rw [hold.1, hold.2]
      exact permitInv_downloading
  | downloadExit i h hphase =>
    have hset := countHolding_set s i h
      ⟨.finished, s[i].acquired, s[i].released + 1⟩
    rw [hphase] at hset
    simp [holdsPermit] at hset
    refine ⟨by rw [List.length_set]; exact hlen, by omega, ?_⟩
    intro x hx
    rcases List.mem_or_eq_of_mem_set hx with hmem | heq
    · exact hinv x hmem
    · subst heq
      have hold := (hinv (s[i]) (List.getElem_mem h)).2.1 (by rw [hphase]; rfl)
      rw [hold.1, hold.2]
      exact permitInv_finished
  | downloadOk i h hphase =>
    have hset := countHolding_set s i h
      ⟨.writingTags, s[i].acquired, s[i].released⟩
    rw [hphase] at hset
    simp [holdsPermit] at hset
    refine ⟨by rw [List.length_set]; exact hlen, by omega, ?_⟩
    intro x hx
    rcases List.mem_or_eq_of_mem_set hx with hmem | heq
    · exact hinv x hmem
    · subst heq
      have hold := (hinv (s[i]) (List.getElem_mem h)).2.1 (by rw [hphase]; rfl)
      rw [hold.1, hold.2]
      exact permitInv_writingTags
  | tagExit i h hphase =>
    have hset := countHolding_set s i h
      ⟨.finished, s[i].acquired, s[i].released + 1⟩
    rw [hphase] at hset
    simp [holdsPermit] at hset
    refine ⟨by rw [List.length_set]; exact hlen, by omega, ?_⟩
    intro x hx
    rcases List.mem_or_eq_of_mem_set hx with hmem | heq
    · exact hinv x hmem
    · subst heq
      have hold := (hinv (s[i]) (List.getElem_mem h)).2.1 (by rw [hphase]; rfl)
      rw [hold.1, hold.2]
      exact permitInv_finished

/-- C7: in every reachable interleaving of the spawned tasks, at most
`min cap n` tasks hold a permit simultaneously, and each task's phase obeys
the acquire/release discipline: exactly one acquire before any hashing or
transfer I/O (all I/O phases have `acquired = 1, released = 0`) and exactly
one release by the time it finishes, on every path. -/
theorem c7_permit_bound (cap n : Nat) (ts : List TaskSt)
    (hreach : SchedReach cap n ts) :
    ts.length = n ∧ countHolding ts ≤ min cap n ∧ ∀ t ∈ ts, permitInv t := by
  induction hreach with
  | init =>
    refine ⟨List.length_replicate n _, ?_, ?_⟩
    · have hz : countHolding (List.replicate n ⟨.idle, 0, 0⟩) = 0 := by
        simp [countHolding, List.filter_replicate, holdsPermit]
      omega
    · intro t ht
      rw [List.eq_of_mem_replicate ht]
      exact permitInv_idle
  | step _ hstep ih =>
    exact schedStep_inv cap n _ _ hstep ih.1 ih.2.1 ih.2.2

/-- C7, witness: the invariant applied to a concrete reachable state of 3
tasks under capacity 2: after two acquires, two tasks hold permits, which is
within `min 2 3`. -/
theorem c7_permit_bound_witness :
    countHolding (List.replicate 3 ⟨.idle, 0, 0⟩) ≤ min 2 3 :=
  (c7_permit_bound 2 3 (List.replicate 3 ⟨.idle, 0, 0⟩) SchedReach.init).2.1
